import Mathlib

/-!
Verification of the `hyperscan` Go wrapper package (file `common.go`).

The development shallowly embeds the code of `common.go`:

* the `DbInfo` descriptor string and its two accessors `Version` and `Mode`,
  which run the anchored regular expression
  `^Version: (\d+\.\d+\.\d+) Features: ([\w\s]+)? Mode: (\w+)$`
  via `regexp.FindStringSubmatch` and check `len(matched) != 4`;
* the database handles (`baseDatabase`) and the serialization entry points
  (`Marshal`, `Unmarshal`, `UnmarshalDatabase`, `UnmarshalBlockDatabase`,
  `UnmarshalStreamDatabase`, `UnmarshalVectoredDatabase`).

Strings are embedded as `List Char` (every string involved here is ASCII, so
characters are a faithful unit).  The regular expression is embedded twice:
once as its standard language semantics (`matchesDbInfoRegex`, an existential
decomposition that transliterates the pattern), and once as the deterministic
submatch extractor (`findInfoSubmatch`) that models what
`regexp.FindStringSubmatch` returns on this particular anchored pattern; the
two are proved equivalent below (`matchesDbInfoRegex_iff_isSome`), which
justifies the extractor: since `':'` belongs to none of the character classes
`\d`, `\w`, `[\w\s]`, every field boundary in a matching descriptor is forced,
so the pattern matches in at most one way and maximal-munch extraction is
exact.

The `hs*` runtime functions (`hsSerializeDatabase`, `hsDeserializeDatabase`,
`hsDeserializeDatabaseAt`, `hsDatabaseInfo`, `ParseModeFlag`, `ErrInvalid`)
are declared in other files of the repository; they are modelled from the
spec where this development needs them, with a doc comment marking each such
definition.
-/

/-- Go regexp character class `\d`: the ASCII digits. -/
def goDigit (c : Char) : Bool := '0' ≤ c && c ≤ '9'

/-- Go regexp character class `\w`: `[0-9A-Za-z_]`. -/
def goWordChar (c : Char) : Bool :=
  goDigit c || ('A' ≤ c && c ≤ 'Z') || ('a' ≤ c && c ≤ 'z') || c = '_'

/-- Go regexp character class `\s`: `[\t\n\f\r ]`. -/
def goSpaceChar (c : Char) : Bool :=
  c = ' ' || c = '\t' || c = '\n' || c = '\x0c' || c = '\r'

/-- The character class `[\w\s]` used in the `Features` segment. -/
def goWordSpace (c : Char) : Bool := goWordChar c || goSpaceChar c

/-- The literal `"Version: "` opening the descriptor. -/
def versionTag : List Char := "Version: ".data

/-- The literal `" Features: "` between the version and the features field. -/
def featuresTag : List Char := " Features: ".data

/-- The five characters `" Mode"`; the full separator before the mode word is
`modeTag ++ ':' :: ' ' :: _`. -/
def modeTag : List Char := [' ', 'M', 'o', 'd', 'e']

/-- Match a literal prefix, returning the remainder of the input. -/
def dropLit : List Char → List Char → Option (List Char)
  | [], s => some s
  | _ :: _, [] => none
  | c :: cs, x :: xs => if x = c then dropLit cs xs else none

/-- Consume a nonempty maximal run of `\d` characters (`\d+`). -/
def takeDigits1 (s : List Char) : Option (List Char × List Char) :=
  match s.takeWhile goDigit with
  | [] => none
  | c :: cs => some (c :: cs, s.dropWhile goDigit)

/-- Split the tail `f ++ " Mode: " ++ m` of the descriptor into the features
capture `f` (class `[\w\s]`) and the mode capture `m` (`\w+`, anchored at the
end).  Since `':'` is in neither class, the maximal `[\w\s]` run must end
exactly at the `':'` of the final `" Mode: "` separator, so the run is
`f ++ " Mode"` and the rest is `": " ++ m`. -/
def splitFeatsMode (r : List Char) : Option (List Char × List Char) :=
  let t := r.takeWhile goWordSpace
  let rest := r.dropWhile goWordSpace
  if rest.take 2 = [':', ' '] && t.drop (t.length - 5) = modeTag
      && !(rest.drop 2).isEmpty && (rest.drop 2).all goWordChar then
    some (t.take (t.length - 5), rest.drop 2)
  else none

/-- The submatch extractor for the anchored pattern
`^Version: (\d+\.\d+\.\d+) Features: ([\w\s]+)? Mode: (\w+)$` of `common.go`:
returns `some (version, features, mode)` exactly when
`regexp.FindStringSubmatch` returns a (necessarily length-4) match, carrying
the three capture groups.  An absent optional features group is returned as
`[]`, matching Go's empty string for an unset group. -/
def findInfoSubmatch (s : List Char) : Option (List Char × List Char × List Char) :=
  Option.bind (dropLit versionTag s) fun r0 =>
  Option.bind (takeDigits1 r0) fun p1 =>
  Option.bind (dropLit ['.'] p1.2) fun r2 =>
  Option.bind (takeDigits1 r2) fun p2 =>
  Option.bind (dropLit ['.'] p2.2) fun r4 =>
  Option.bind (takeDigits1 r4) fun p3 =>
  Option.bind (dropLit featuresTag p3.2) fun r6 =>
  Option.bind (splitFeatsMode r6) fun fm =>
  some (p1.1 ++ '.' :: p2.1 ++ '.' :: p3.1, fm.1, fm.2)

/-- Error values of the package.  `invalid` embeds the sentinel `ErrInvalid`;
`wrapped` embeds Go's `fmt.Errorf("..., %w", cause)` wrapping, which keeps the
cause inspectable by `errors.Is`. -/
inductive HsError where
  | invalid : HsError
  | unexpected : HsError
  | wrapped : String → HsError → HsError
deriving DecidableEq

/-- Modelled from the spec: the sentinel error of kind `Invalid`
(malformed descriptor/serialized form); declared outside `common.go`. -/
def ErrInvalid : HsError := HsError.invalid

/-- Go's `errors.Is`: an error `e` has kind `target` when `e` equals `target`
or its chain of wrapped causes reaches `target`. -/
def errorIs : HsError → HsError → Bool
  | HsError.wrapped m c, t => HsError.wrapped m c == t || errorIs c t
  | e, t => e == t

/-- The three scanning modes of the spec's data model. -/
inductive ModeFlag where
  | block : ModeFlag
  | stream : ModeFlag
  | vectored : ModeFlag
deriving DecidableEq

/-- Modelled from the spec: `ParseModeFlag` (declared outside `common.go`)
parses a mode word into a `ModeFlag`, failing on an unknown word. -/
def ParseModeFlag (s : String) : Except HsError ModeFlag :=
  if s = "BLOCK" then Except.ok ModeFlag.block
  else if s = "STREAM" then Except.ok ModeFlag.stream
  else if s = "VECTORED" then Except.ok ModeFlag.vectored
  else Except.error (HsError.wrapped "database mode" HsError.unexpected)

/-- `type DbInfo string`: the database descriptor string. -/
def DbInfo := String

/-- `func (i DbInfo) String() string { return string(i) }`. -/
def DbInfo.toString (i : DbInfo) : String := i

/-- The error `fmt.Errorf("database info, %w", ErrInvalid)` returned by both
`Version` and `Mode` when the descriptor does not match the pattern. -/
def dbInfoErr : HsError := HsError.wrapped "database info" ErrInvalid

/-- `func (i DbInfo) Version() (string, error)`: the first capture of the
descriptor pattern, or the `Invalid`-kind error when `len(matched) != 4`. -/
def DbInfo.Version (i : DbInfo) : Except HsError String :=
  match findInfoSubmatch (DbInfo.toString i).data with
  | some (v, _, _) => Except.ok (String.mk v)
  | none => Except.error dbInfoErr

/-- `func (i DbInfo) Mode() (ModeFlag, error)`: `ParseModeFlag` applied to the
third capture, or the `Invalid`-kind error when `len(matched) != 4`. -/
def DbInfo.Mode (i : DbInfo) : Except HsError ModeFlag :=
  match findInfoSubmatch (DbInfo.toString i).data with
  | some (_, _, m) => ParseModeFlag (String.mk m)
  | none => Except.error dbInfoErr

/-- The body of the first capture group `(\d+\.\d+\.\d+)`. -/
def versionBody (d1 d2 d3 : List Char) : List Char := d1 ++ '.' :: d2 ++ '.' :: d3

/-- The decomposition imposed by the descriptor pattern: literal pieces
around the three variable fields. -/
def infoLayout (d1 d2 d3 f m : List Char) : List Char :=
  versionTag ++ versionBody d1 d2 d3 ++ featuresTag ++ f ++ modeTag ++ ':' :: ' ' :: m

/-- Language of `\d+`. -/
def digitsField (d : List Char) : Prop := d ≠ [] ∧ d.all goDigit = true

/-- Language of the mode capture `\w+`. -/
def modeField (m : List Char) : Prop := m ≠ [] ∧ m.all goWordChar = true

instance decDigitsField (d : List Char) : Decidable (digitsField d) :=
  inferInstanceAs (Decidable (d ≠ [] ∧ d.all goDigit = true))

instance decModeField (m : List Char) : Decidable (modeField m) :=
  inferInstanceAs (Decidable (m ≠ [] ∧ m.all goWordChar = true))

/-- Language semantics of the source pattern
`^Version: (\d+\.\d+\.\d+) Features: ([\w\s]+)? Mode: (\w+)$`: a direct
transliteration, the optional plus-group rendered as `f = [] ∨ (f ≠ [] ∧ …)`. -/
def matchesDbInfoRegex (s : List Char) : Prop :=
  ∃ d1 d2 d3 f m, s = infoLayout d1 d2 d3 f m ∧
    digitsField d1 ∧ digitsField d2 ∧ digitsField d3 ∧
    (f = [] ∨ (f ≠ [] ∧ f.all goWordSpace = true)) ∧ modeField m

/-- The descriptor grammar as the spec's external-interface section writes it:
`Version: \d+\.\d+\.\d+ Features: [\w\s]* Mode: \w+`, anchored at both ends,
with a starred (possibly empty) features segment. -/
def specInfoGrammar (s : List Char) : Prop :=
  ∃ d1 d2 d3 f m, s = infoLayout d1 d2 d3 f m ∧
    digitsField d1 ∧ digitsField d2 ∧ digitsField d3 ∧
    f.all goWordSpace = true ∧ modeField m

/-- Modelled from the spec: the logical content of a compiled pattern
database (the opaque `hs_database_t` behind the cgo boundary, outside
`common.go`): its descriptor string, its compile-time mode, and the compiled
pattern set that determines all match results. -/
structure HsDbContent where
  info : String
  mode : ModeFlag
  patterns : List (Nat × String)
deriving DecidableEq

/-- Modelled from the spec: the runtime's allocation state.  Handles
(`hsDatabase` values) are modelled as natural numbers; `mem` is the storage
behind each live handle and `nextHandle` the next fresh handle. -/
structure HsState where
  nextHandle : Nat
  mem : Nat → Option HsDbContent

/-- Modelled from the spec: the serialized byte stream, abstracted as either
a well-formed encoding of a database's content (the format is self-describing
and lossless) or bytes that fail structural validation. -/
inductive SerializedDb where
  | valid : HsDbContent → SerializedDb
  | corrupt : SerializedDb

/-- Modelled from the spec: `hsSerializeDatabase` (outside `common.go`)
deterministically encodes the content behind a live handle. -/
def hsSerializeDatabase (db : Nat) (st : HsState) : Except HsError SerializedDb :=
  match st.mem db with
  | some c => Except.ok (SerializedDb.valid c)
  | none => Except.error ErrInvalid

/-- Modelled from the spec: `hsDeserializeDatabase` (outside `common.go`)
reconstructs a database into freshly allocated storage, or fails with an
`Invalid`-kind error on bytes that are not a valid serialized database. -/
def hsDeserializeDatabase (data : SerializedDb) (st : HsState) :
    Except HsError Nat × HsState :=
  match data with
  | SerializedDb.valid c =>
    (Except.ok st.nextHandle,
      ⟨st.nextHandle + 1, fun h => if h = st.nextHandle then some c else st.mem h⟩)
  | SerializedDb.corrupt => (Except.error ErrInvalid, st)

/-- Modelled from the spec: `hsDeserializeDatabaseAt` (outside `common.go`)
reconstructs a database into the previously allocated storage behind the
given handle, allocating nothing. -/
def hsDeserializeDatabaseAt (data : SerializedDb) (db : Nat) (st : HsState) :
    Except HsError Unit × HsState :=
  match data with
  | SerializedDb.valid c =>
    (Except.ok (), ⟨st.nextHandle, fun h => if h = db then some c else st.mem h⟩)
  | SerializedDb.corrupt => (Except.error ErrInvalid, st)

/-- Modelled from the spec: `hsDatabaseInfo` (outside `common.go`) reads the
descriptor string of the database behind a live handle. -/
def hsDatabaseInfo (db : Nat) (st : HsState) : Except HsError String :=
  match st.mem db with
  | some c => Except.ok c.info
  | none => Except.error ErrInvalid

/-- `type baseDatabase struct { db hsDatabase }`. -/
structure baseDatabase where
  db : Nat

/-- `func newBaseDatabase(db hsDatabase) *baseDatabase`. -/
def newBaseDatabase (db : Nat) : baseDatabase := ⟨db⟩

/-- `func (d *baseDatabase) Db() hsDatabase { return d.db }`. -/
def baseDatabase.Db (d : baseDatabase) : Nat := d.db

/-- `func (d *baseDatabase) Info() (DbInfo, error)`: the descriptor read
through `hsDatabaseInfo` and converted to `DbInfo`. -/
def baseDatabase.Info (d : baseDatabase) (st : HsState) : Except HsError DbInfo :=
  hsDatabaseInfo d.db st

/-- `func (d *baseDatabase) Marshal() ([]byte, error)`. -/
def baseDatabase.Marshal (d : baseDatabase) (st : HsState) : Except HsError SerializedDb :=
  hsSerializeDatabase d.db st

/-- `func (d *baseDatabase) Unmarshal(data []byte) error`: delegates to
`hsDeserializeDatabaseAt` on the database's own handle. -/
def baseDatabase.Unmarshal (d : baseDatabase) (data : SerializedDb) (st : HsState) :
    Except HsError Unit × HsState :=
  hsDeserializeDatabaseAt data d.db st

/-- Modelled from the spec: the block matcher/scanner layers wrapped by
`newBlockDatabase` live outside `common.go`; behaviorally they wrap a base
database holding the deserialized handle. -/
structure blockDatabase where
  base : baseDatabase

/-- `func newBlockDatabase(db hsDatabase) *blockDatabase`. -/
def newBlockDatabase (db : Nat) : blockDatabase := ⟨newBaseDatabase db⟩

/-- Modelled from the spec: the stream matcher/scanner layers wrapped by
`newStreamDatabase` live outside `common.go`. -/
structure streamDatabase where
  base : baseDatabase

/-- `func newStreamDatabase(db hsDatabase) *streamDatabase`. -/
def newStreamDatabase (db : Nat) : streamDatabase := ⟨newBaseDatabase db⟩

/-- Modelled from the spec: the vectored matcher/scanner layers wrapped by
`newVectoredDatabase` live outside `common.go`. -/
structure vectoredDatabase where
  base : baseDatabase

/-- `func newVectoredDatabase(db hsDatabase) *vectoredDatabase`. -/
def newVectoredDatabase (db : Nat) : vectoredDatabase := ⟨newBaseDatabase db⟩

/-- `func UnmarshalDatabase(data []byte) (Database, error)`: Go's two-valued
return is embedded as a pair of options (`nil` interface / `nil` error). -/
def UnmarshalDatabase (data : SerializedDb) (st : HsState) :
    (Option baseDatabase × Option HsError) × HsState :=
  match hsDeserializeDatabase data st with
  | (Except.error e, st1) => ((none, some e), st1)
  | (Except.ok db, st1) => ((some ⟨db⟩, none), st1)

/-- `func UnmarshalBlockDatabase(data []byte) (BlockDatabase, error)`. -/
def UnmarshalBlockDatabase (data : SerializedDb) (st : HsState) :
    (Option blockDatabase × Option HsError) × HsState :=
  match hsDeserializeDatabase data st with
  | (Except.error e, st1) => ((none, some e), st1)
  | (Except.ok db, st1) => ((some (newBlockDatabase db), none), st1)

/-- `func UnmarshalStreamDatabase(data []byte) (StreamDatabase, error)`. -/
def UnmarshalStreamDatabase (data : SerializedDb) (st : HsState) :
    (Option streamDatabase × Option HsError) × HsState :=
  match hsDeserializeDatabase data st with
  | (Except.error e, st1) => ((none, some e), st1)
  | (Except.ok db, st1) => ((some (newStreamDatabase db), none), st1)

/-- `func UnmarshalVectoredDatabase(data []byte) (VectoredDatabase, error)`. -/
def UnmarshalVectoredDatabase (data : SerializedDb) (st : HsState) :
    (Option vectoredDatabase × Option HsError) × HsState :=
  match hsDeserializeDatabase data st with
  | (Except.error e, st1) => ((none, some e), st1)
  | (Except.ok db, st1) => ((some (newVectoredDatabase db), none), st1)

/-- A sample compiled-database content, used by concrete witnesses. -/
def cDemo : HsDbContent :=
  ⟨"Version: 5.4.2 Features:  Mode: BLOCK", ModeFlag.block, [(1, "ab+c")]⟩

/-- A sample runtime state with `cDemo` stored behind handle `0`. -/
def stDemo : HsState := ⟨1, fun h => if h = 0 then some cDemo else none⟩

/-- A second sample state with the same content behind handle `3`. -/
def stDemo2 : HsState := ⟨5, fun h => if h = 3 then some cDemo else none⟩

/-- A database value holding handle `0`. -/
def dDemo : baseDatabase := ⟨0⟩

/-- A database value holding handle `3`. -/
def dDemo2 : baseDatabase := ⟨3⟩

/-- A well-formed serialized stream, used by concrete witnesses. -/
def sdDemo : SerializedDb := SerializedDb.valid cDemo

theorem takeWhile_all_append (p : Char → Bool) (a : List Char) (c : Char) (b : List Char)
    (ha : a.all p = true) (hc : p c = false) :
    (a ++ c :: b).takeWhile p = a := by
  induction a with
  | nil => simp [List.takeWhile_cons, hc]
  | cons x xs ih =>
    simp only [List.all_cons, Bool.and_eq_true] at ha
    simp [List.takeWhile_cons, ha.1, ih ha.2]

theorem dropWhile_all_append (p : Char → Bool) (a : List Char) (c : Char) (b : List Char)
    (ha : a.all p = true) (hc : p c = false) :
    (a ++ c :: b).dropWhile p = c :: b := by
  induction a with
  | nil => simp [List.dropWhile_cons, hc]
  | cons x xs ih =>
    simp only [List.all_cons, Bool.and_eq_true] at ha
    simp [List.dropWhile_cons, ha.1, ih ha.2]

theorem dropLit_self_append (lit s : List Char) : dropLit lit (lit ++ s) = some s := by
  induction lit with
  | nil => rfl
  | cons c cs ih => simp [dropLit, ih]

theorem dropLit_sound (lit s r : List Char) (h : dropLit lit s = some r) : s = lit ++ r := by
  induction lit generalizing s with
  | nil => simpa [dropLit] using h
  | cons c cs ih =>
    cases s with
    | nil => simp [dropLit] at h
    | cons x xs =>
      simp only [dropLit] at h
      split at h
      · rename_i hx
        subst hx
        rw [List.cons_append, ih xs h]
      · exact absurd h (by simp)

theorem takeDigits1_append (d : List Char) (c : Char) (b : List Char)
    (hd : d ≠ []) (ha : d.all goDigit = true) (hc : goDigit c = false) :
    takeDigits1 (d ++ c :: b) = some (d, c :: b) := by
  unfold takeDigits1
  rw [takeWhile_all_append goDigit d c b ha hc, dropWhile_all_append goDigit d c b ha hc]
  cases d with
  | nil => exact absurd rfl hd
  | cons x xs => rfl

theorem takeDigits1_sound (s d r : List Char) (h : takeDigits1 s = some (d, r)) :
    s = d ++ r ∧ d ≠ [] ∧ d.all goDigit = true := by
  unfold takeDigits1 at h
  cases htw : s.takeWhile goDigit with
  | nil => rw [htw] at h; exact absurd h (by simp)
  | cons x xs =>
    rw [htw] at h
    injection h with h
    injection h with h1 h2
    refine ⟨?_, ?_, ?_⟩
    · rw [← h1, ← h2, ← htw]
      exact (List.takeWhile_append_dropWhile goDigit s).symm
    · rw [← h1]; simp
    · rw [← h1, ← htw]
      exact List.all_eq_true.mpr fun x hx => List.mem_takeWhile_imp hx

theorem splitFeatsMode_layout (f m : List Char)
    (hf : f.all goWordSpace = true) (hm1 : m ≠ []) (hm2 : m.all goWordChar = true) :
    splitFeatsMode (f ++ (modeTag ++ ':' :: ' ' :: m)) = some (f, m) := by
  have hall : (f ++ modeTag).all goWordSpace = true := by
    rw [List.all_append, hf]
    decide
  unfold splitFeatsMode
  rw [← List.append_assoc]
  rw [dropWhile_all_append goWordSpace (f ++ modeTag) ':' (' ' :: m) hall (by decide),
    takeWhile_all_append goWordSpace (f ++ modeTag) ':' (' ' :: m) hall (by decide)]
  simp only
  have htake : (':' :: ' ' :: m).take 2 = [':', ' '] := rfl
  have hdrop : (':' :: ' ' :: m).drop 2 = m := rfl
  have hlen : (f ++ modeTag).length - 5 = f.length := by simp [modeTag]
  rw [htake, hdrop, hlen, List.drop_left, List.take_left]
  have hme : m.isEmpty = false := by
    cases m with
    | nil => exact absurd rfl hm1
    | cons x xs => rfl
  simp [hme, hm2]

theorem splitFeatsMode_sound (r f m : List Char) (h : splitFeatsMode r = some (f, m)) :
    r = f ++ (modeTag ++ ':' :: ' ' :: m) ∧
      f.all goWordSpace = true ∧ m ≠ [] ∧ m.all goWordChar = true := by
  unfold splitFeatsMode at h
  simp only at h
  split at h
  · rename_i hcond
    injection h with h
    injection h with h1 h2
    simp only [Bool.and_eq_true, decide_eq_true_eq, Bool.not_eq_true'] at hcond
    obtain ⟨⟨⟨htake2, hdropm⟩, hne⟩, hall⟩ := hcond
    refine ⟨?_, ?_, ?_, ?_⟩
    · have hsplitT : (r.takeWhile goWordSpace).take ((r.takeWhile goWordSpace).length - 5)
          ++ (r.takeWhile goWordSpace).drop ((r.takeWhile goWordSpace).length - 5)
          = r.takeWhile goWordSpace := List.take_append_drop _ _
      have hsplitR : (r.dropWhile goWordSpace).take 2 ++ (r.dropWhile goWordSpace).drop 2
          = r.dropWhile goWordSpace := List.take_append_drop _ _
      calc r = r.takeWhile goWordSpace ++ r.dropWhile goWordSpace :=
            (List.takeWhile_append_dropWhile goWordSpace r).symm
        _ = (f ++ modeTag) ++ r.dropWhile goWordSpace := by rw [← hsplitT, h1, hdropm]
        _ = (f ++ modeTag) ++ (':' :: ' ' :: m) := by rw [← hsplitR, htake2, h2]; rfl
        _ = f ++ (modeTag ++ ':' :: ' ' :: m) := by rw [List.append_assoc]
    · rw [← h1]
      exact List.all_eq_true.mpr fun c hc =>
        List.mem_takeWhile_imp (List.mem_of_mem_take hc)
    · rw [← h2]
      intro hnil
      rw [hnil] at hne
      exact absurd hne (by simp)
    · rw [← h2]
      exact hall
  · exact absurd h (by simp)

theorem findInfoSubmatch_layout (d1 d2 d3 f m : List Char)
    (h1 : digitsField d1) (h2 : digitsField d2) (h3 : digitsField d3)
    (hf : f.all goWordSpace = true) (hm : modeField m) :
    findInfoSubmatch (infoLayout d1 d2 d3 f m) =
      some (versionBody d1 d2 d3, f, m) := by
  obtain ⟨h1n, h1a⟩ := h1
  obtain ⟨h2n, h2a⟩ := h2
  obtain ⟨h3n, h3a⟩ := h3
  obtain ⟨hmn, hma⟩ := hm
  have hfeat : ∀ x : List Char, featuresTag ++ x = ' ' :: ("Features: ".data ++ x) :=
    fun x => rfl
  simp only [infoLayout, versionBody, List.append_assoc, List.cons_append]
  unfold findInfoSubmatch
  rw [dropLit_self_append]
  simp only [Option.some_bind]
  rw [takeDigits1_append d1 '.' _ h1n h1a (by decide)]
  simp only [Option.some_bind]
  rw [show dropLit ['.']
        ('.' :: (d2 ++ '.' :: (d3 ++ (featuresTag ++ (f ++ (modeTag ++ ':' :: ' ' :: m))))))
      = some (d2 ++ '.' :: (d3 ++ (featuresTag ++ (f ++ (modeTag ++ ':' :: ' ' :: m)))))
    from by simp [dropLit]]
  simp only [Option.some_bind]
  rw [takeDigits1_append d2 '.' _ h2n h2a (by decide)]
  simp only [Option.some_bind]
  rw [show dropLit ['.'] ('.' :: (d3 ++ (featuresTag ++ (f ++ (modeTag ++ ':' :: ' ' :: m)))))
      = some (d3 ++ (featuresTag ++ (f ++ (modeTag ++ ':' :: ' ' :: m))))
    from by simp [dropLit]]
  simp only [Option.some_bind]
  rw [hfeat (f ++ (modeTag ++ ':' :: ' ' :: m))]
  rw [takeDigits1_append d3 ' ' _ h3n h3a (by decide)]
  simp only [Option.some_bind]
  rw [← hfeat (f ++ (modeTag ++ ':' :: ' ' :: m)), dropLit_self_append]
  simp only [Option.some_bind]
  rw [splitFeatsMode_layout f m hf hmn hma]
  simp [List.append_assoc]

theorem findInfoSubmatch_sound (s v f m : List Char)
    (h : findInfoSubmatch s = some (v, f, m)) :
    ∃ d1 d2 d3, v = versionBody d1 d2 d3 ∧ s = infoLayout d1 d2 d3 f m ∧
      digitsField d1 ∧ digitsField d2 ∧ digitsField d3 ∧
      f.all goWordSpace = true ∧ modeField m := by
  unfold findInfoSubmatch at h
  rcases Option.bind_eq_some.mp h with ⟨r0, hA, h⟩
  rcases Option.bind_eq_some.mp h with ⟨p1, hB, h⟩
  obtain ⟨d1, r1⟩ := p1
  rcases Option.bind_eq_some.mp h with ⟨r2, hC, h⟩
  rcases Option.bind_eq_some.mp h with ⟨p2, hD, h⟩
  obtain ⟨d2, r3⟩ := p2
  rcases Option.bind_eq_some.mp h with ⟨r4, hE, h⟩
  rcases Option.bind_eq_some.mp h with ⟨p3, hF, h⟩
  obtain ⟨d3, r5⟩ := p3
  rcases Option.bind_eq_some.mp h with ⟨r6, hG, h⟩
  rcases Option.bind_eq_some.mp h with ⟨fm, hH, h⟩
  obtain ⟨f1, m1⟩ := fm
  injection h with h
  obtain ⟨hv, hfm⟩ := Prod.ext_iff.mp h
  obtain ⟨hf1, hm1⟩ := Prod.ext_iff.mp hfm
  simp only at hv hf1 hm1
  obtain ⟨hr0, h1n, h1a⟩ := takeDigits1_sound r0 d1 r1 hB
  obtain ⟨hr2, h2n, h2a⟩ := takeDigits1_sound r2 d2 r3 hD
  obtain ⟨hr4, h3n, h3a⟩ := takeDigits1_sound r4 d3 r5 hF
  obtain ⟨hr6, hfa, hmn, hma⟩ := splitFeatsMode_sound r6 f1 m1 hH
  subst hf1
  subst hm1
  refine ⟨d1, d2, d3, ?_, ?_, ⟨h1n, h1a⟩, ⟨h2n, h2a⟩, ⟨h3n, h3a⟩, hfa, hmn, hma⟩
  · rw [← hv]
    rfl
  · rw [dropLit_sound versionTag s r0 hA, hr0, dropLit_sound ['.'] r1 r2 hC, hr2,
      dropLit_sound ['.'] r3 r4 hE, hr4, dropLit_sound featuresTag r5 r6 hG, hr6]
    simp [infoLayout, versionBody, List.append_assoc]

theorem findInfoSubmatch_isSome_iff (s : List Char) :
    (findInfoSubmatch s).isSome = true ↔ specInfoGrammar s := by
  constructor
  · intro h
    obtain ⟨⟨v, f, m⟩, hsome⟩ := Option.isSome_iff_exists.mp h
    obtain ⟨d1, d2, d3, _, hs, hd1, hd2, hd3, hfa, hm⟩ :=
      findInfoSubmatch_sound s v f m hsome
    exact ⟨d1, d2, d3, f, m, hs, hd1, hd2, hd3, hfa, hm⟩
  · intro ⟨d1, d2, d3, f, m, hs, hd1, hd2, hd3, hfa, hm⟩
    rw [hs, findInfoSubmatch_layout d1 d2 d3 f m hd1 hd2 hd3 hfa hm]
    rfl

theorem matchesDbInfoRegex_iff_spec (s : List Char) :
    matchesDbInfoRegex s ↔ specInfoGrammar s := by
  constructor
  · intro ⟨d1, d2, d3, f, m, hs, hd1, hd2, hd3, hf, hm⟩
    refine ⟨d1, d2, d3, f, m, hs, hd1, hd2, hd3, ?_, hm⟩
    rcases hf with rfl | ⟨_, hfa⟩
    · rfl
    · exact hfa
  · intro ⟨d1, d2, d3, f, m, hs, hd1, hd2, hd3, hfa, hm⟩
    refine ⟨d1, d2, d3, f, m, hs, hd1, hd2, hd3, ?_, hm⟩
    cases f with
    | nil => exact Or.inl rfl
    | cons x xs => exact Or.inr ⟨by simp, hfa⟩

theorem matchesDbInfoRegex_iff_isSome (s : List Char) :
    matchesDbInfoRegex s ↔ (findInfoSubmatch s).isSome = true := by
  rw [matchesDbInfoRegex_iff_spec, findInfoSubmatch_isSome_iff]

/-- C2: for every descriptor string that does not match the three-field
pattern, both `DbInfo.Version` and `DbInfo.Mode` return the wrapped
`database info` error, whose `Invalid` kind is detectable by `errors.Is`
against the sentinel `ErrInvalid`, not only by message text. -/
theorem version_mode_invalid_on_nonmatching (s : DbInfo)
    (h : ¬ matchesDbInfoRegex (DbInfo.toString s).data) :
    DbInfo.Version s = Except.error dbInfoErr ∧
    DbInfo.Mode s = Except.error dbInfoErr ∧
    errorIs dbInfoErr ErrInvalid = true := by
  have hnone : findInfoSubmatch (DbInfo.toString s).data = none := by
    cases hfs : findInfoSubmatch (DbInfo.toString s).data with
    | none => rfl
    | some out =>
      exact absurd ((matchesDbInfoRegex_iff_isSome _).mpr (by rw [hfs]; rfl)) h
  refine ⟨?_, ?_, rfl⟩
  · unfold DbInfo.Version
    rw [hnone]
  · unfold DbInfo.Mode
    rw [hnone]

/-- Witness for C2 at the concrete non-matching descriptor `"garbage"`. -/
theorem version_mode_invalid_on_nonmatching_witness :
    ¬ matchesDbInfoRegex (DbInfo.toString ("garbage" : String)).data ∧
    (DbInfo.Version ("garbage" : String) = Except.error dbInfoErr ∧
      DbInfo.Mode ("garbage" : String) = Except.error dbInfoErr ∧
      errorIs dbInfoErr ErrInvalid = true) :=
  have hng : ¬ matchesDbInfoRegex (DbInfo.toString ("garbage" : String)).data := fun hm =>
    absurd ((matchesDbInfoRegex_iff_isSome _).mp hm) (by decide)
  ⟨hng, version_mode_invalid_on_nonmatching ("garbage" : String) hng⟩

/-- C3: `DbInfo.Version` succeeds exactly on the strings of the spec's
anchored grammar `Version: \d+\.\d+\.\d+ Features: [\w\s]* Mode: \w+`; in
particular a descriptor whose features segment is empty is accepted. -/
theorem version_ok_iff_spec_grammar :
    (∀ s : DbInfo,
      (∃ v, DbInfo.Version s = Except.ok v) ↔ specInfoGrammar (DbInfo.toString s).data) ∧
    DbInfo.Version ("Version: 5.4.2 Features:  Mode: BLOCK" : String) = Except.ok "5.4.2" := by
  constructor
  · intro s
    rw [← findInfoSubmatch_isSome_iff]
    unfold DbInfo.Version
    cases hfs : findInfoSubmatch (DbInfo.toString s).data with
    | none => simp
    | some out =>
      obtain ⟨v, f, m⟩ := out
      simp
  · rfl

/-- C4: on a descriptor assembled from the grammar's fields, `Version`
returns the dotted version substring (the first capture) and `Mode` returns
`ParseModeFlag` applied to the word after `"Mode: "` (the third capture). -/
theorem version_mode_capture (d1 d2 d3 f m : List Char)
    (h1 : digitsField d1) (h2 : digitsField d2) (h3 : digitsField d3)
    (hf : f.all goWordSpace = true) (hm : modeField m) :
    DbInfo.Version (String.mk (infoLayout d1 d2 d3 f m)) =
      Except.ok (String.mk (versionBody d1 d2 d3)) ∧
    DbInfo.Mode (String.mk (infoLayout d1 d2 d3 f m)) = ParseModeFlag (String.mk m) := by
  have hfind := findInfoSubmatch_layout d1 d2 d3 f m h1 h2 h3 hf hm
  constructor
  · unfold DbInfo.Version
    rw [show (DbInfo.toString (String.mk (infoLayout d1 d2 d3 f m))).data
        = infoLayout d1 d2 d3 f m from rfl, hfind]
  · unfold DbInfo.Mode
    rw [show (DbInfo.toString (String.mk (infoLayout d1 d2 d3 f m))).data
        = infoLayout d1 d2 d3 f m from rfl, hfind]

/-- Witness for C4 at the concrete fields `5`, `4`, `2`, `AVX2`, `BLOCK`. -/
theorem version_mode_capture_witness :
    (digitsField "5".data ∧ digitsField "4".data ∧ digitsField "2".data ∧
      "AVX2".data.all goWordSpace = true ∧ modeField "BLOCK".data) ∧
    (DbInfo.Version (String.mk (infoLayout "5".data "4".data "2".data "AVX2".data "BLOCK".data)) =
      Except.ok (String.mk (versionBody "5".data "4".data "2".data)) ∧
    DbInfo.Mode (String.mk (infoLayout "5".data "4".data "2".data "AVX2".data "BLOCK".data)) =
      ParseModeFlag (String.mk "BLOCK".data)) :=
  ⟨⟨by decide, by decide, by decide, by decide, by decide⟩,
    version_mode_capture "5".data "4".data "2".data "AVX2".data "BLOCK".data
      (by decide) (by decide) (by decide) (by decide) (by decide)⟩

/-- C8: whenever `DbInfo.Mode` succeeds on a descriptor, `DbInfo.Version`
succeeds on the same descriptor: `Mode` only adds the mode-word parse on top
of the same pattern match. -/
theorem mode_ok_implies_version_ok (s : DbInfo)
    (h : ∃ mf, DbInfo.Mode s = Except.ok mf) :
    ∃ v, DbInfo.Version s = Except.ok v := by
  obtain ⟨mf, hmf⟩ := h
  unfold DbInfo.Mode at hmf
  unfold DbInfo.Version
  cases hfs : findInfoSubmatch (DbInfo.toString s).data with
  | none =>
    rw [hfs] at hmf
    exact absurd hmf (by simp)
  | some out =>
    obtain ⟨v, f, m⟩ := out
    exact ⟨String.mk v, rfl⟩

/-- Witness for C8 at a concrete stream-mode descriptor. -/
theorem mode_ok_implies_version_ok_witness :
    (∃ mf, DbInfo.Mode ("Version: 5.4.2 Features: AVX2 Mode: STREAM" : String)
      = Except.ok mf) ∧
    (∃ v, DbInfo.Version ("Version: 5.4.2 Features: AVX2 Mode: STREAM" : String)
      = Except.ok v) :=
  ⟨⟨ModeFlag.stream, rfl⟩,
    mode_ok_implies_version_ok ("Version: 5.4.2 Features: AVX2 Mode: STREAM" : String)
      ⟨ModeFlag.stream, rfl⟩⟩

/-- C10: `DbInfo` is a transparent wrapper: converting a string to `DbInfo`
and reading it back through `String()` is the identity. -/
theorem dbinfo_tostring_identity (s : String) : DbInfo.toString (s : DbInfo) = s := rfl

/-- C1: serializing a live database and unmarshalling the bytes yields a
database with the same stored content, hence the same `Info()` descriptor
and, for any content-determined scanning behavior on any input, the same
match results. -/
theorem marshal_unmarshal_roundtrip (st : HsState) (d : baseDatabase) (c : HsDbContent)
    (h : st.mem (baseDatabase.Db d) = some c) :
    ∃ bytes d1 st1,
      baseDatabase.Marshal d st = Except.ok bytes ∧
      UnmarshalDatabase bytes st = ((some d1, none), st1) ∧
      st1.mem (baseDatabase.Db d1) = st.mem (baseDatabase.Db d) ∧
      baseDatabase.Info d1 st1 = baseDatabase.Info d st ∧
      ∀ (scan : HsDbContent → List Char → List (Nat × Nat)) (input : List Char),
        (st1.mem (baseDatabase.Db d1)).map (fun c1 => scan c1 input)
          = (st.mem (baseDatabase.Db d)).map (fun c1 => scan c1 input) := by
  have h' : st.mem d.db = some c := h
  have hmem : ((⟨st.nextHandle + 1,
      fun hh => if hh = st.nextHandle then some c else st.mem hh⟩ : HsState)).mem
        st.nextHandle = some c := by simp
  refine ⟨SerializedDb.valid c, ⟨st.nextHandle⟩,
    ⟨st.nextHandle + 1, fun hh => if hh = st.nextHandle then some c else st.mem hh⟩,
    ?_, ?_, ?_, ?_, ?_⟩
  · unfold baseDatabase.Marshal hsSerializeDatabase
    rw [h']
  · unfold UnmarshalDatabase hsDeserializeDatabase
    rfl
  · rw [show baseDatabase.Db ⟨st.nextHandle⟩ = st.nextHandle from rfl, hmem, h]
  · unfold baseDatabase.Info hsDatabaseInfo
    rw [show (⟨st.nextHandle⟩ : baseDatabase).db = st.nextHandle from rfl,
      show ((⟨st.nextHandle + 1,
        fun hh => if hh = st.nextHandle then some c else st.mem hh⟩ : HsState)).mem
          st.nextHandle = some c from hmem, h']
  · intro scan input
    rw [show baseDatabase.Db ⟨st.nextHandle⟩ = st.nextHandle from rfl, hmem, h]

/-- Witness for C1 at the concrete state `stDemo` holding `cDemo` behind the
handle of `dDemo`. -/
theorem marshal_unmarshal_roundtrip_witness :
    stDemo.mem (baseDatabase.Db dDemo) = some cDemo ∧
    (∃ bytes d1 st1,
      baseDatabase.Marshal dDemo stDemo = Except.ok bytes ∧
      UnmarshalDatabase bytes stDemo = ((some d1, none), st1) ∧
      st1.mem (baseDatabase.Db d1) = stDemo.mem (baseDatabase.Db dDemo) ∧
      baseDatabase.Info d1 st1 = baseDatabase.Info dDemo stDemo ∧
      ∀ (scan : HsDbContent → List Char → List (Nat × Nat)) (input : List Char),
        (st1.mem (baseDatabase.Db d1)).map (fun c1 => scan c1 input)
          = (stDemo.mem (baseDatabase.Db dDemo)).map (fun c1 => scan c1 input)) :=
  ⟨rfl, marshal_unmarshal_roundtrip stDemo dDemo cDemo rfl⟩

/-- C5: serialization is deterministic: `Marshal` takes no input other than
the database handle, mutates nothing, and its output is a function of the
stored content alone, so two calls on the same unmodified database yield
identical output. -/
theorem marshal_deterministic (d1 d2 : baseDatabase) (st1 st2 : HsState)
    (h : st1.mem (baseDatabase.Db d1) = st2.mem (baseDatabase.Db d2)) :
    baseDatabase.Marshal d1 st1 = baseDatabase.Marshal d2 st2 := by
  unfold baseDatabase.Marshal hsSerializeDatabase
  rw [show st1.mem d1.db = st2.mem d2.db from h]

/-- Witness for C5: two databases with equal stored content marshal to the
same bytes (in particular, the same database twice in the same state). -/
theorem marshal_deterministic_witness :
    stDemo.mem (baseDatabase.Db dDemo) = stDemo2.mem (baseDatabase.Db dDemo2) ∧
    baseDatabase.Marshal dDemo stDemo = baseDatabase.Marshal dDemo2 stDemo2 :=
  ⟨rfl, marshal_deterministic dDemo dDemo2 stDemo stDemo2 rfl⟩

/-- C6: every unmarshalling entry point returns a non-nil database exactly
when it returns a nil error; on invalid bytes the call fails and no database
value reaches the caller. -/
theorem unmarshal_some_iff_no_error (data : SerializedDb) (st : HsState) :
    ((UnmarshalDatabase data st).1.1.isSome = true ↔ (UnmarshalDatabase data st).1.2 = none) ∧
    ((UnmarshalBlockDatabase data st).1.1.isSome = true
      ↔ (UnmarshalBlockDatabase data st).1.2 = none) ∧
    ((UnmarshalStreamDatabase data st).1.1.isSome = true
      ↔ (UnmarshalStreamDatabase data st).1.2 = none) ∧
    ((UnmarshalVectoredDatabase data st).1.1.isSome = true
      ↔ (UnmarshalVectoredDatabase data st).1.2 = none) := by
  cases data <;>
    simp [UnmarshalDatabase, UnmarshalBlockDatabase, UnmarshalStreamDatabase,
      UnmarshalVectoredDatabase, hsDeserializeDatabase]

/-- C7: `baseDatabase.Unmarshal` reconstructs into the database's existing
storage: it delegates to `hsDeserializeDatabaseAt` on the database's own
handle, allocates no fresh handle, and touches no storage other than the one
behind `Db()`. -/
theorem unmarshal_at_frame (d : baseDatabase) (data : SerializedDb) (st : HsState) :
    (baseDatabase.Unmarshal d data st).2.nextHandle = st.nextHandle ∧
    (∀ h2 : Nat, h2 ≠ baseDatabase.Db d →
      (baseDatabase.Unmarshal d data st).2.mem h2 = st.mem h2) ∧
    baseDatabase.Unmarshal d data st = hsDeserializeDatabaseAt data (baseDatabase.Db d) st := by
  refine ⟨?_, ?_, rfl⟩
  · cases data <;> rfl
  · intro h2 hne
    cases data with
    | valid c =>
      simp only [baseDatabase.Unmarshal, hsDeserializeDatabaseAt]
      exact if_neg hne
    | corrupt => rfl

/-- Witness for C7 at concrete inputs: handle `7` is distinct from `dDemo`'s
handle and its storage is untouched. -/
theorem unmarshal_at_frame_witness :
    (baseDatabase.Unmarshal dDemo sdDemo stDemo).2.nextHandle = stDemo.nextHandle ∧
    (7 : Nat) ≠ baseDatabase.Db dDemo ∧
    (baseDatabase.Unmarshal dDemo sdDemo stDemo).2.mem 7 = stDemo.mem 7 :=
  ⟨(unmarshal_at_frame dDemo sdDemo stDemo).1, by decide,
    (unmarshal_at_frame dDemo sdDemo stDemo).2.1 7 (by decide)⟩

/-- C9: the three typed unmarshalling constructors delegate to the same
underlying deserialization with no mode check, so on any byte stream they all
succeed or all fail together. -/
theorem typed_unmarshal_agree (data : SerializedDb) (st : HsState) :
    ((UnmarshalBlockDatabase data st).1.2 = none ↔ (UnmarshalDatabase data st).1.2 = none) ∧
    ((UnmarshalStreamDatabase data st).1.2 = none
      ↔ (UnmarshalBlockDatabase data st).1.2 = none) ∧
    ((UnmarshalVectoredDatabase data st).1.2 = none
      ↔ (UnmarshalStreamDatabase data st).1.2 = none) := by
  cases data <;>
    simp [UnmarshalDatabase, UnmarshalBlockDatabase, UnmarshalStreamDatabase,
      UnmarshalVectoredDatabase, hsDeserializeDatabase]
